import Mathlib

/-!
Verification development for the fuzzy record-matching engine of
Excels-Columns-Merger (src/excel_merger/matching.py).

The embedding models:
- scalar cell values as `Option String` (`none` models a pandas null/NA,
  `some s` a scalar already rendered as text);
- dataframes as lists of rows, a row being an association list from column
  name to value;
- Python floats as rationals, with the two similarity engines (rapidfuzz and
  difflib) kept abstract as rational-valued functions, since no claim depends
  on the numeric value a scorer returns;
- the iteration order over the Python set of candidate positions as the
  ascending position order (the spec itself records that the set order is
  implementation-defined).
-/

namespace ExcelsColumnsMerger

/-! ## Text normalization (normalize_text, matching.py lines 30 to 34) -/

/-- Whitespace test used consistently for Python `str.strip`, `str.split`
and the regex class in `re.sub(r"\s+", " ", text)` (ASCII whitespace). -/
def isWspace (c : Char) : Bool :=
  c = ' ' || c = '\t' || c = '\n' || c = '\r' || c = '\x0b' || c = '\x0c'

/-- Python `str.strip()` on a character list: drop leading and trailing
whitespace. -/
def pyStrip (l : List Char) : List Char :=
  List.rdropWhile isWspace (l.dropWhile isWspace)

/-- Python `re.sub(r"\s+", " ", text)` on a character list: replace every
maximal run of whitespace by a single space (the run is consumed pairwise;
its last character becomes the single `' '`). -/
def collapseWs : List Char → List Char
  | [] => []
  | [c] => if isWspace c then [' '] else [c]
  | c₁ :: c₂ :: rest =>
    if isWspace c₁ && isWspace c₂ then collapseWs (c₂ :: rest)
    else (if isWspace c₁ then ' ' else c₁) :: collapseWs (c₂ :: rest)

/-- Body of `normalize_text` for a non-null value already rendered as text:
`str(value).strip().lower()` followed by whitespace collapsing.  Python
`str.lower()` is modelled by `Char.toLower` (they agree on ASCII). -/
def normalizeChars (l : List Char) : List Char :=
  collapseWs ((pyStrip l).map Char.toLower)

/-- Embeds `normalize_text` (matching.py lines 30 to 34): a null scalar maps
to the empty string, any other scalar is stringified, stripped, lower-cased
and whitespace-collapsed. -/
def normalize_text : Option String → String
  | none => ""
  | some s => String.mk (normalizeChars s.data)

/-! ### Character-level facts -/

theorem char_toNat_inj (a b : Char) (h : a.toNat = b.toNat) : a = b := by
  apply Char.ext
  unfold Char.toNat at h
  exact UInt32.toNat.inj h

theorem decide_char_eq (c d : Char) : decide (c = d) = (c.toNat == d.toNat) := by
  by_cases h : c = d
  · subst h; simp
  · have hn : c.toNat ≠ d.toNat := fun hn => h (char_toNat_inj c d hn)
    simp [h, hn]

theorem toNat_ofNat_valid (m : Nat) (h : m < 55296) : (Char.ofNat m).toNat = m := by
  have hv : Nat.isValidChar m := Or.inl h
  unfold Char.ofNat
  rw [dif_pos hv]
  unfold Char.ofNatAux Char.toNat
  simp [UInt32.toNat]

theorem isWspace_false_of_gt (c : Char) (h : 32 < c.toNat) : isWspace c = false := by
  unfold isWspace
  rw [decide_char_eq c ' ', decide_char_eq c '\t', decide_char_eq c '\n',
      decide_char_eq c '\x0d', decide_char_eq c '\x0b', decide_char_eq c '\x0c']
  have e1 : ' '.toNat = 32 := rfl
  have e2 : '\t'.toNat = 9 := rfl
  have e3 : '\n'.toNat = 10 := rfl
  have e4 : '\x0d'.toNat = 13 := rfl
  have e5 : '\x0b'.toNat = 11 := rfl
  have e6 : '\x0c'.toNat = 12 := rfl
  rw [e1, e2, e3, e4, e5, e6]
  simp only [Bool.or_eq_false_iff, beq_eq_false_iff_ne, ne_eq]
  refine ⟨⟨⟨⟨⟨?_, ?_⟩, ?_⟩, ?_⟩, ?_⟩, ?_⟩ <;> omega

theorem toLower_idem (c : Char) : c.toLower.toLower = c.toLower := by
  unfold Char.toLower
  by_cases h : c.toNat ≥ 65 ∧ c.toNat ≤ 90
  · rw [if_pos h]
    have h2 : (Char.ofNat (c.toNat + 32)).toNat = c.toNat + 32 := by
      apply toNat_ofNat_valid; omega
    rw [if_neg]
    omega
  · rw [if_neg h, if_neg h]

theorem isWspace_toLower (c : Char) : isWspace c.toLower = isWspace c := by
  unfold Char.toLower
  by_cases h : c.toNat ≥ 65 ∧ c.toNat ≤ 90
  · rw [if_pos h]
    have h2 : (Char.ofNat (c.toNat + 32)).toNat = c.toNat + 32 := by
      apply toNat_ofNat_valid; omega
    rw [show isWspace (Char.ofNat (c.toNat + 32)) = false from
          isWspace_false_of_gt _ (by rw [h2]; omega),
        isWspace_false_of_gt c (by omega)]
  · rw [if_neg h]

/-! ### Shape of whitespace-collapsed text -/

/-- Whether a character list starts with whitespace. -/
def headWs : List Char → Bool
  | [] => false
  | c :: _ => isWspace c

/-- Whether a character list ends with whitespace. -/
def lastWs (l : List Char) : Bool :=
  (l.getLast?.map isWspace).getD false

theorem isWspace_space : isWspace ' ' = true := by decide

/-- Whether a character list has no two adjacent whitespace characters. -/
def noWsRun : List Char → Bool
  | [] => true
  | [_] => true
  | c₁ :: c₂ :: rest => !(isWspace c₁ && isWspace c₂) && noWsRun (c₂ :: rest)

theorem collapse_props : ∀ l : List Char,
    (∀ c ∈ collapseWs l, isWspace c = true → c = ' ') ∧
    noWsRun (collapseWs l) = true ∧
    headWs (collapseWs l) = headWs l ∧
    (collapseWs l = [] ↔ l = []) ∧
    (lastWs l = false → lastWs (collapseWs l) = false) ∧
    (∀ c ∈ collapseWs l, c = ' ' ∨ c ∈ l) := by
  intro l
  induction l with
  | nil => simp [collapseWs, noWsRun, headWs, lastWs]
  | cons c rest ih =>
    cases rest with
    | nil =>
      by_cases h : isWspace c = true
      · simp [collapseWs, h, noWsRun, headWs, lastWs, isWspace_space]
      · simp [collapseWs, h, noWsRun, headWs, lastWs]
    | cons c₂ r₂ =>
      obtain ⟨ih₁, ih₂, ih₃, ih₄, ih₅, ih₆⟩ := ih
      have hlast : lastWs (c :: c₂ :: r₂) = lastWs (c₂ :: r₂) := by
        unfold lastWs
        rw [List.getLast?_cons_cons]
      by_cases h : (isWspace c && isWspace c₂) = true
      · have hc : isWspace c = true := (Bool.and_eq_true_iff.mp h).1
        have hc₂ : isWspace c₂ = true := (Bool.and_eq_true_iff.mp h).2
        have hcoll : collapseWs (c :: c₂ :: r₂) = collapseWs (c₂ :: r₂) := by
          simp [collapseWs, h]
        rw [hcoll]
        refine ⟨ih₁, ih₂, ?_, ?_, ?_, ?_⟩
        · rw [ih₃]
          simp [headWs, hc, hc₂]
        · constructor
          · intro he
            exact absurd (ih₄.mp he) (by simp)
          · intro he; exact absurd he (by simp)
        · intro hl
          rw [hlast] at hl
          exact ih₅ hl
        · intro a ha
          rcases ih₆ a ha with h' | h'
          · exact Or.inl h'
          · exact Or.inr (List.mem_cons_of_mem c h')
      · have hc₂false : isWspace c = true → isWspace c₂ = false := by
          intro hc
          cases hw₂ : isWspace c₂
          · rfl
          · exact absurd (by simp [hc, hw₂]) h
        obtain ⟨d, hcoll, hwd, hdor⟩ :
            ∃ d, collapseWs (c :: c₂ :: r₂) = d :: collapseWs (c₂ :: r₂) ∧
              isWspace d = isWspace c ∧ (d = ' ' ∨ (d = c ∧ isWspace c = false)) := by
          by_cases hc : isWspace c = true
          · exact ⟨' ', by simp [collapseWs, h, hc, hc₂false hc],
              by rw [isWspace_space, hc], Or.inl rfl⟩
          · exact ⟨c, by simp [collapseWs, h, hc], rfl,
              Or.inr ⟨rfl, by simpa using hc⟩⟩
        rw [hcoll]
        refine ⟨?_, ?_, ?_, ?_, ?_, ?_⟩
        · intro a ha hwa
          rcases List.mem_cons.mp ha with h' | h'
          · subst h'
            rcases hdor with h'' | ⟨h'', hcf⟩
            · exact h''
            · rw [h''] at hwa
              exact absurd hwa (by simp [hcf])
          · exact ih₁ a h' hwa
        · cases hcr : collapseWs (c₂ :: r₂) with
          | nil => simp [noWsRun]
          | cons e es =>
            have hwe : isWspace e = headWs (c₂ :: r₂) := by
              have h3 := ih₃
              rw [hcr] at h3
              exact h3
            unfold noWsRun
            rw [Bool.and_eq_true]
            constructor
            · cases hc : isWspace c with
              | false => simp [hwd, hc]
              | true =>
                have : isWspace e = false := by
                  rw [hwe]
                  simp [headWs, hc₂false hc]
                simp [this]
            · rw [← hcr]
              exact ih₂
        · simp only [headWs, hwd]
        · constructor
          · intro he; exact absurd he (by simp)
          · intro he; exact absurd he (by simp)
        · intro hl
          rw [hlast] at hl
          have htail : lastWs (collapseWs (c₂ :: r₂)) = false := ih₅ hl
          cases hcr : collapseWs (c₂ :: r₂) with
          | nil => exact absurd (ih₄.mp hcr) (by simp)
          | cons e es =>
            unfold lastWs
            rw [List.getLast?_cons_cons]
            rw [hcr] at htail
            exact htail
        · intro a ha
          rcases List.mem_cons.mp ha with h' | h'
          · subst h'
            rcases hdor with h'' | ⟨h'', _⟩
            · exact Or.inl h''
            · rw [h'']
              exact Or.inr (List.mem_cons_self c _)
          · rcases ih₆ a h' with h'' | h''
            · exact Or.inl h''
            · exact Or.inr (List.mem_cons_of_mem c h'')

theorem collapse_fix : ∀ l : List Char, noWsRun l = true →
    (∀ c ∈ l, isWspace c = true → c = ' ') → collapseWs l = l := by
  intro l
  induction l with
  | nil => intro _ _; rfl
  | cons c rest ih =>
    cases rest with
    | nil =>
      intro _ hsp
      by_cases h : isWspace c = true
      · have : c = ' ' := hsp c (List.mem_cons_self c _) h
        simp [collapseWs, h, this]
      · simp [collapseWs, h]
    | cons c₂ r₂ =>
      intro hrun hsp
      unfold noWsRun at hrun
      rw [Bool.and_eq_true] at hrun
      obtain ⟨hnadj, hrun₂⟩ := hrun
      have hnadj' : (isWspace c && isWspace c₂) = false := by
        revert hnadj; cases (isWspace c && isWspace c₂) <;> simp
      have hcoll : collapseWs (c :: c₂ :: r₂) =
          (if isWspace c then ' ' else c) :: collapseWs (c₂ :: r₂) := by
        simp only [collapseWs, if_neg (by simp [hnadj'] : ¬(isWspace c && isWspace c₂) = true)]
      rw [hcoll]
      have htail : collapseWs (c₂ :: r₂) = c₂ :: r₂ :=
        ih hrun₂ (fun a ha hwa => hsp a (List.mem_cons_of_mem c ha) hwa)
      rw [htail]
      by_cases h : isWspace c = true
      · have : c = ' ' := hsp c (List.mem_cons_self c _) h
        rw [if_pos h, this]
      · rw [if_neg h]

/-! ### Strip and lower-case fixpoints -/

theorem dropWhile_eq_self_of_headWs (l : List Char) (h : headWs l = false) :
    l.dropWhile isWspace = l := by
  cases l with
  | nil => rfl
  | cons c rest =>
    simp only [headWs] at h
    simp [List.dropWhile_cons, h]

theorem rdropWhile_eq_self_of_lastWs (l : List Char) (h : lastWs l = false) :
    List.rdropWhile isWspace l = l := by
  rw [List.rdropWhile_eq_self_iff]
  intro hl
  unfold lastWs at h
  rw [List.getLast?_eq_getLast l hl] at h
  simp only [Option.map_some', Option.getD_some] at h
  simp [h]

theorem pyStrip_eq_self (l : List Char) (h1 : headWs l = false) (h2 : lastWs l = false) :
    pyStrip l = l := by
  unfold pyStrip
  rw [dropWhile_eq_self_of_headWs l h1, rdropWhile_eq_self_of_lastWs l h2]

theorem headWs_dropWhile (l : List Char) : headWs (l.dropWhile isWspace) = false := by
  induction l with
  | nil => rfl
  | cons c rest ih =>
    rw [List.dropWhile_cons]
    by_cases h : isWspace c = true
    · rw [if_pos h]; exact ih
    · rw [if_neg h]
      unfold headWs
      simpa using h

theorem headWs_rdropWhile (l : List Char) (h : headWs l = false) :
    headWs (List.rdropWhile isWspace l) = false := by
  obtain ⟨t, ht⟩ := List.rdropWhile_prefix isWspace (l := l)
  cases hr : List.rdropWhile isWspace l with
  | nil => rfl
  | cons a s =>
    rw [hr] at ht
    rw [← ht] at h
    exact h

theorem headWs_pyStrip (l : List Char) : headWs (pyStrip l) = false :=
  headWs_rdropWhile _ (headWs_dropWhile l)

theorem lastWs_pyStrip (l : List Char) : lastWs (pyStrip l) = false := by
  unfold pyStrip lastWs
  cases hr : List.rdropWhile isWspace (l.dropWhile isWspace) with
  | nil => rfl
  | cons a s =>
    have hne : List.rdropWhile isWspace (l.dropWhile isWspace) ≠ [] := by
      rw [hr]; simp
    have hlast := List.rdropWhile_last_not isWspace (l.dropWhile isWspace) hne
    rw [← hr, List.getLast?_eq_getLast _ hne]
    simp only [Option.map_some', Option.getD_some]
    simpa using hlast

theorem headWs_map_toLower (l : List Char) :
    headWs (l.map Char.toLower) = headWs l := by
  cases l with
  | nil => rfl
  | cons c rest =>
    unfold headWs
    rw [List.map_cons]
    exact isWspace_toLower c

theorem lastWs_map_toLower (l : List Char) :
    lastWs (l.map Char.toLower) = lastWs l := by
  unfold lastWs
  rw [List.getLast?_map]
  cases l.getLast? with
  | none => rfl
  | some c => exact isWspace_toLower c

/-! ### Idempotence of normalization -/

theorem normalizeChars_idem (l : List Char) :
    normalizeChars (normalizeChars l) = normalizeChars l := by
  set m : List Char := (pyStrip l).map Char.toLower with hm
  obtain ⟨p₁, p₂, p₃, _, p₅, p₆⟩ := collapse_props m
  have hhead : headWs (collapseWs m) = false := by
    rw [p₃, hm, headWs_map_toLower]
    exact headWs_pyStrip l
  have hlast : lastWs (collapseWs m) = false := by
    apply p₅
    rw [hm, lastWs_map_toLower]
    exact lastWs_pyStrip l
  have hlower : ∀ c ∈ collapseWs m, c.toLower = c := by
    intro c hc
    rcases p₆ c hc with h | h
    · subst h; rfl
    · rw [hm] at h
      rcases List.mem_map.mp h with ⟨a, _, ha⟩
      rw [← ha]
      exact toLower_idem a
  show collapseWs ((pyStrip (collapseWs m)).map Char.toLower) = collapseWs m
  rw [pyStrip_eq_self _ hhead hlast]
  rw [List.map_congr_left hlower, List.map_id' (collapseWs m)]
  exact collapse_fix _ p₂ p₁

/-- C8: normalization is idempotent: for every representable scalar value
(null, or a scalar rendered as text), applying `normalize_text` to an
already-normalized value returns it unchanged. -/
theorem normalize_text_idem (v : Option String) :
    normalize_text (some (normalize_text v)) = normalize_text v := by
  cases v with
  | none => rfl
  | some s =>
    show String.mk (normalizeChars (String.mk (normalizeChars s.data)).data) =
      String.mk (normalizeChars s.data)
    rw [show (String.mk (normalizeChars s.data)).data = normalizeChars s.data from rfl]
    rw [normalizeChars_idem]

/-! ## Tokenization (Python `str.split()` with no arguments) -/

/-- Helper for `splitWs`: returns the word currently being assembled at the
front together with the completed words to its right. -/
def splitWsCore : List Char → List Char × List (List Char)
  | [] => ([], [])
  | c :: rest =>
    let acc := splitWsCore rest
    if isWspace c then
      if acc.1 = [] then ([], acc.2) else ([], acc.1 :: acc.2)
    else (c :: acc.1, acc.2)

/-- Python `str.split()` with no arguments: split on runs of whitespace,
discarding empty tokens. -/
def splitWs (l : List Char) : List (List Char) :=
  let acc := splitWsCore l
  if acc.1 = [] then acc.2 else acc.1 :: acc.2

/-- Tokens of a string, as used by `ltext.split()` and inside
`build_token_index` (matching.py lines 49 to 54). -/
def pyWords (s : String) : List String :=
  (splitWs s.data).map String.mk

/-! ## Blocking indexes (build_token_index and build_exact_index,
matching.py lines 49 to 62)

Both Python indexes are hash maps populated by one pass over
`right_text_values`, appending (or set-inserting) each position `pos` under
the keys derived from `text_values[pos]`.  The bucket a key holds is
therefore exactly the list of positions whose text satisfies the key
condition, in increasing position order (append order equals enumeration
order).  `matchPositions` computes that bucket directly. -/

/-- Positions of the elements satisfying `pred`, in increasing order. -/
def matchPositions (pred : String → Bool) : List String → List Nat
  | [] => []
  | t :: rest =>
    if pred t then 0 :: (matchPositions pred rest).map (· + 1)
    else (matchPositions pred rest).map (· + 1)

/-- Embeds the bucket `build_exact_index(text_values)[key]` (matching.py
lines 57 to 62): the loop appends `pos` under key `text` only when
`text` is non-empty, so the bucket of a key is the ordered list of positions
with that exact text, and the empty string is never a key (its bucket is
empty, meaning absent). -/
def exact_bucket (text_values : List String) (key : String) : List Nat :=
  if key = "" then [] else matchPositions (fun t => t == key) text_values

/-- Embeds the postings set `build_token_index(text_values)[token]`
(matching.py lines 49 to 54), as the ordered list of positions whose text
contains `token` among its whitespace-split tokens. -/
def token_postings (text_values : List String) (token : String) : List Nat :=
  matchPositions (fun t => (pyWords t).contains token) text_values

/-- The candidate set of a left row (matching.py lines 165 to 169): the
union, over the row tokens, of the token-index postings sets. -/
def candidate_set (text_values : List String) (ltokens : List String) : Finset Nat :=
  ltokens.foldr (fun token acc => (token_postings text_values token).toFinset ∪ acc) ∅

/-- The candidate positions enumerated in ascending order, modelling one
fixed iteration order over the Python set `candidate_positions` (the spec
records that the set iteration order is implementation-defined). -/
def candidate_positions (text_values : List String) (ltokens : List String) : List Nat :=
  matchPositions (fun t => (pyWords t).any (fun token => ltokens.contains token)) text_values

/-! ## Similarity scoring (matching.py lines 9 to 12 and 65 to 68)

Scores are Python floats computed by rapidfuzz or difflib; no claim depends
on the numeric value a scorer returns, so both engines are abstract
rational-valued functions bundled with an availability flag for the
optional rapidfuzz import. -/

structure SimilarityEnv where
  rapidfuzz_available : Bool
  rapidfuzz_ratio : String → String → ℚ
  difflib_ratio : String → String → ℚ

/-- Embeds `_similarity_ratio` (matching.py lines 65 to 68). -/
def similarity_ratio (env : SimilarityEnv) (left_text right_text : String)
    (use_rapidfuzz : Bool) : ℚ :=
  if use_rapidfuzz && env.rapidfuzz_available then env.rapidfuzz_ratio left_text right_text
  else env.difflib_ratio left_text right_text

/-! ## Data model -/

/-- A scalar cell value: `none` models a pandas null/NA, `some s` a scalar
rendered as text. -/
abbrev Value := Option String

/-- A row: an association list from column name to value. -/
abbrev Row := List (String × Value)

/-- Column access `row[col]`.  The claims only exercise it on columns
present in the row; an absent column yields a null. -/
def rowGet (r : Row) (c : String) : Value :=
  (r.lookup c).getD none

/-- Embeds `combine_columns` (matching.py lines 37 to 46): with no selected
columns every row maps to the empty string; otherwise nulls become empty
strings (`fillna`), values are stringified, joined with single spaces and
the joined text is normalized. -/
def combine_columns (df : List Row) (selected_cols : List String) : List String :=
  if selected_cols.isEmpty then df.map (fun _ => "")
  else df.map (fun r =>
    normalize_text (some (String.intercalate " "
      (selected_cols.map (fun c => (rowGet r c).getD "")))))

/-- Embeds `df[cols].to_dict("records")` (matching.py lines 91 to 92). -/
def to_records (df : List Row) (cols : List String) : List (List (String × Value)) :=
  df.map (fun r => cols.map (fun c => (c, rowGet r c)))

/-- A cell of an output row: a data value, the similarity score, or the
match status text. -/
inductive Cell where
  | val (v : Value)
  | num (q : ℚ)
  | txt (s : String)
deriving DecidableEq

/-- An output row, modelling the insertion-ordered Python dict built per
emitted row. -/
abbrev OutRow := List (String × Cell)

/-- Models Python `round(x, 4)` on the score. -/
def round4 (q : ℚ) : ℚ := (round (q * 10000) : ℚ) / 10000

/-- The per-left-row decision state of the matching loop (matching.py lines
156 to 179): best score, best right position, whether the exact fast path
hit, and how many candidate comparisons the row performed. -/
structure RowDecision where
  best_score : ℚ
  best_pos : Option Nat
  exact_hit : Bool
  comparisons : Nat
deriving DecidableEq

instance : Inhabited RowDecision := ⟨⟨0, none, false, 0⟩⟩

/-- Embeds the candidate-scoring loop (matching.py lines 171 to 176):
starting from score 0.0 and no position, each candidate is scored and
replaces the current best only on a strictly greater score. -/
def scan_candidates (env : SimilarityEnv) (use_rapidfuzz : Bool) (ltext : String)
    (right_text_values : List String) (cands : List Nat) : ℚ × Option Nat :=
  cands.foldl (fun acc right_pos =>
    let score := similarity_ratio env ltext (right_text_values.getD right_pos "") use_rapidfuzz
    if acc.1 < score then (score, some right_pos) else acc) (0, none)

/-- Embeds the body of the per-left-row loop (matching.py lines 156 to 179):
exact fast path when the normalized text is a key of the exact index, else
the blocked fuzzy path over the token-derived candidate set, else no match. -/
def match_row (env : SimilarityEnv) (use_rapidfuzz : Bool)
    (right_text_values : List String) (ltext : String) : RowDecision :=
  if exact_bucket right_text_values ltext ≠ [] then
    { best_score := 1,
      best_pos := some ((exact_bucket right_text_values ltext).headD 0),
      exact_hit := true,
      comparisons := 0 }
  else
    let ltokens := pyWords ltext
    if ltokens ≠ [] then
      let cands := candidate_positions right_text_values ltokens
      let scanned := scan_candidates env use_rapidfuzz ltext right_text_values cands
      { best_score := scanned.1,
        best_pos := scanned.2,
        exact_hit := false,
        comparisons := cands.length }
    else
      { best_score := 0, best_pos := none, exact_hit := false, comparisons := 0 }

/-- Embeds the `MatchResult` dataclass (matching.py lines 15 to 27). -/
structure MatchResult where
  result_rows : List OutRow
  best_scores : List ℚ
  best_positions : List (Option Nat)
  left_text : List String
  right_text : List String
  similarity_enabled : Bool
  similarity_engine : String
  exact_match_count : Nat
  candidate_comparisons : Nat
  left_match_columns_used : List String
  right_match_columns_used : List String
deriving DecidableEq

/-- Embeds `run_matching` (matching.py lines 71 to 215).  The progress
callback performs no computation that feeds back into the result; its
invocation sequence is modelled separately by `progress_calls`. -/
def run_matching (env : SimilarityEnv) (left_df right_df : List Row)
    (left_output_cols right_output_cols left_match_cols right_match_cols : List String)
    (threshold : ℚ) (include_unmatched : Bool) (prefer_rapidfuzz : Bool) : MatchResult :=
  let similarity_enabled := !left_match_cols.isEmpty && !right_match_cols.isEmpty
  let effective_left_match_cols := if similarity_enabled then left_match_cols else []
  let effective_right_match_cols := if similarity_enabled then right_match_cols else []
  let left_text := combine_columns left_df effective_left_match_cols
  let right_text := combine_columns right_df effective_right_match_cols
  let left_output_records := to_records left_df left_output_cols
  let right_output_records := to_records right_df right_output_cols
  if similarity_enabled = false then
    let total_rows := left_output_records.length
    let rows := (List.range total_rows).foldl (fun acc left_pos =>
      let has_right_row := left_pos < right_output_records.length
      let row : OutRow :=
        (left_output_records.getD left_pos []).map
          (fun cv => ("Left_" ++ cv.1, Cell.val cv.2)) ++
        (if has_right_row then
          (right_output_records.getD left_pos []).map
            (fun cv => ("Right_" ++ cv.1, Cell.val cv.2))
         else
          right_output_cols.map (fun col => ("Right_" ++ col, Cell.val none)))
      if has_right_row || include_unmatched then acc ++ [row] else acc) []
    { result_rows := rows
      best_scores := []
      best_positions := []
      left_text := left_text
      right_text := right_text
      similarity_enabled := false
      similarity_engine := "disabled"
      exact_match_count := 0
      candidate_comparisons := 0
      left_match_columns_used := []
      right_match_columns_used := [] }
  else
    let use_rapidfuzz := prefer_rapidfuzz && env.rapidfuzz_available
    let similarity_engine := if use_rapidfuzz then "rapidfuzz" else "difflib"
    let decisions := left_text.map (match_row env use_rapidfuzz right_text)
    let rows := (List.range left_text.length).foldl (fun acc left_pos =>
      let d := decisions.getD left_pos default
      let matched := d.best_pos.isSome && decide (threshold ≤ d.best_score)
      if matched || include_unmatched then
        let row : OutRow :=
          (left_output_records.getD left_pos []).map
            (fun cv => ("Left_" ++ cv.1, Cell.val cv.2)) ++
          (if matched && d.best_pos.isSome then
            (right_output_records.getD (d.best_pos.getD 0) []).map
              (fun cv => ("Right_" ++ cv.1, Cell.val cv.2))
           else
            right_output_cols.map (fun col => ("Right_" ++ col, Cell.val none))) ++
          [("Similarity_Score", Cell.num (round4 d.best_score)),
           ("Match_Status", Cell.txt (if matched then "Matched" else "No match"))]
        acc ++ [row]
      else acc) []
    { result_rows := rows
      best_scores := decisions.map (fun d => d.best_score)
      best_positions := decisions.map (fun d => d.best_pos)
      left_text := left_text
      right_text := right_text
      similarity_enabled := true
      similarity_engine := similarity_engine
      exact_match_count := (decisions.filter (fun d => d.exact_hit)).length
      candidate_comparisons := (decisions.map (fun d => d.comparisons)).sum
      left_match_columns_used := effective_left_match_cols
      right_match_columns_used := effective_right_match_cols }

/-- Embeds the progress-callback invocation sequence of `run_matching`
(matching.py lines 97 to 100, 118 to 121, 150 to 154 and 198 to 201; the
logic is identical in both output modes): one initial call with
`(0, total_rows)`, then after each processed row a call when the count of
processed rows is a multiple of the update interval or equals the total.
The default interval is `max(total_rows // 200, 1)`. -/
def progress_calls (total_rows : Nat) (progress_update_every : Option Nat) : List (Nat × Nat) :=
  let every := match progress_update_every with
    | none => max (total_rows / 200) 1
    | some k => k
  (0, total_rows) :: (List.range total_rows).filterMap (fun left_pos =>
    let done_rows := left_pos + 1
    if done_rows % every == 0 || done_rows == total_rows then
      some (done_rows, total_rows)
    else none)

/-! ## Supporting lemmas -/

theorem getD_map {α β : Type} (f : α → β) (l : List α) (i : Nat) (d : β) (d₀ : α)
    (h : i < l.length) : (l.map f).getD i d = f (l.getD i d₀) := by
  induction l generalizing i with
  | nil => exact absurd h (by simp)
  | cons a rest ih =>
    cases i with
    | zero => rfl
    | succ j =>
      simp only [List.map_cons, List.getD_cons_succ]
      exact ih j (by simpa using h)

theorem combine_columns_length (df : List Row) (cols : List String) :
    (combine_columns df cols).length = df.length := by
  unfold combine_columns
  by_cases h : cols.isEmpty <;> simp [h]

theorem to_records_length (df : List Row) (cols : List String) :
    (to_records df cols).length = df.length := by
  unfold to_records
  simp

theorem mem_matchPositions (pred : String → Bool) (l : List String) (p : Nat) :
    p ∈ matchPositions pred l ↔ p < l.length ∧ pred (l.getD p "") = true := by
  induction l generalizing p with
  | nil => simp [matchPositions]
  | cons t rest ih =>
    by_cases hp : pred t
    · cases p with
      | zero => simp [matchPositions, hp]
      | succ q =>
        simp only [matchPositions, if_pos hp, List.mem_cons, List.mem_map,
          List.length_cons, List.getD_cons_succ]
        constructor
        · rintro (h | ⟨a, ha, haq⟩)
          · exact absurd h (by omega)
          · obtain ⟨h1, h2⟩ := (ih a).mp ha
            have : a = q := by omega
            subst this
            exact ⟨by omega, h2⟩
        · rintro ⟨h1, h2⟩
          exact Or.inr ⟨q, (ih q).mpr ⟨by omega, h2⟩, rfl⟩
    · cases p with
      | zero =>
        simp only [matchPositions, if_neg hp, List.mem_map]
        constructor
        · rintro ⟨a, _, ha⟩; exact absurd ha (by omega)
        · rintro ⟨_, h2⟩
          simp only [List.getD_cons_zero] at h2
          exact absurd h2 (by simp [hp])
      | succ q =>
        simp only [matchPositions, if_neg hp, List.mem_map,
          List.length_cons, List.getD_cons_succ]
        constructor
        · rintro ⟨a, ha, haq⟩
          obtain ⟨h1, h2⟩ := (ih a).mp ha
          have : a = q := by omega
          subst this
          exact ⟨by omega, h2⟩
        · rintro ⟨h1, h2⟩
          exact ⟨q, (ih q).mpr ⟨by omega, h2⟩, rfl⟩

theorem nodup_matchPositions (pred : String → Bool) (l : List String) :
    (matchPositions pred l).Nodup := by
  induction l with
  | nil => simp [matchPositions]
  | cons t rest ih =>
    have hmap : ((matchPositions pred rest).map (· + 1)).Nodup :=
      ih.map (fun a b => by omega)
    by_cases hp : pred t
    · simp only [matchPositions, if_pos hp]
      refine List.Nodup.cons ?_ hmap
      simp only [List.mem_map]
      rintro ⟨a, _, ha⟩
      omega
    · simpa only [matchPositions, if_neg hp] using hmap

theorem head_matchPositions (pred : String → Bool) (l : List String)
    (hne : matchPositions pred l ≠ []) :
    (matchPositions pred l).headD 0 < l.length ∧
    pred (l.getD ((matchPositions pred l).headD 0) "") = true ∧
    ∀ q < (matchPositions pred l).headD 0, pred (l.getD q "") = false := by
  induction l with
  | nil => exact absurd rfl hne
  | cons t rest ih =>
    by_cases hp : pred t
    · simp only [matchPositions, if_pos hp, List.headD_cons]
      exact ⟨by simp, by simpa using hp, fun q hq => absurd hq (by omega)⟩
    · simp only [matchPositions, if_neg hp] at hne ⊢
      have hne' : matchPositions pred rest ≠ [] := by
        intro h0
        rw [h0] at hne
        exact hne rfl
      obtain ⟨ih1, ih2, ih3⟩ := ih hne'
      cases hm : matchPositions pred rest with
      | nil => exact absurd hm hne'
      | cons a s =>
        rw [hm] at ih1 ih2 ih3
        simp only [List.headD_cons] at ih1 ih2 ih3
        simp only [hm, List.map_cons, List.headD_cons]
        refine ⟨by simpa using ih1, by simpa using ih2, ?_⟩
        intro q hq
        cases q with
        | zero => simpa using hp
        | succ r =>
          simp only [List.getD_cons_succ]
          exact ih3 r (by omega)

theorem headD_mem {α : Type} (l : List α) (d : α) (h : l ≠ []) : l.headD d ∈ l := by
  cases l with
  | nil => exact absurd rfl h
  | cons a s => exact List.mem_cons_self a s

theorem foldl_emit {α β : Type} (p : α → Bool) (f : α → β) (l : List α) (init : List β) :
    l.foldl (fun acc x => if p x then acc ++ [f x] else acc) init
      = init ++ l.filterMap (fun x => if p x then some (f x) else none) := by
  induction l generalizing init with
  | nil => simp
  | cons a rest ih =>
    by_cases h : p a
    · simp [List.foldl_cons, h, ih, List.filterMap_cons]
    · simp [List.foldl_cons, h, ih, List.filterMap_cons]

theorem scan_candidates_pos (env : SimilarityEnv) (use_rapidfuzz : Bool) (ltext : String)
    (right_text_values : List String) (cands : List Nat) :
    (scan_candidates env use_rapidfuzz ltext right_text_values cands).2 = none ∨
    ∃ p ∈ cands, (scan_candidates env use_rapidfuzz ltext right_text_values cands).2 = some p := by
  have h : ∀ (cs : List Nat) (acc : ℚ × Option Nat),
      (cs.foldl (fun acc right_pos =>
        if acc.1 < similarity_ratio env ltext (right_text_values.getD right_pos "") use_rapidfuzz
        then (similarity_ratio env ltext (right_text_values.getD right_pos "") use_rapidfuzz,
          some right_pos)
        else acc) acc).2 = acc.2 ∨
      ∃ p ∈ cs, (cs.foldl (fun acc right_pos =>
        if acc.1 < similarity_ratio env ltext (right_text_values.getD right_pos "") use_rapidfuzz
        then (similarity_ratio env ltext (right_text_values.getD right_pos "") use_rapidfuzz,
          some right_pos)
        else acc) acc).2 = some p := by
    intro cs
    induction cs with
    | nil => intro acc; exact Or.inl rfl
    | cons c rest ih =>
      intro acc
      by_cases hs : acc.1 < similarity_ratio env ltext (right_text_values.getD c "") use_rapidfuzz
      · rw [List.foldl_cons, if_pos hs]
        rcases ih (similarity_ratio env ltext (right_text_values.getD c "") use_rapidfuzz,
            some c) with h' | ⟨p, hp, h'⟩
        · exact Or.inr ⟨c, List.mem_cons_self c rest, h'⟩
        · exact Or.inr ⟨p, List.mem_cons_of_mem c hp, h'⟩
      · rw [List.foldl_cons, if_neg hs]
        rcases ih acc with h' | ⟨p, hp, h'⟩
        · exact Or.inl h'
        · exact Or.inr ⟨p, List.mem_cons_of_mem c hp, h'⟩
  rcases h cands (0, none) with h' | ⟨p, hp, h'⟩
  · exact Or.inl h'
  · exact Or.inr ⟨p, hp, h'⟩

theorem mem_candidate_set (text_values : List String) (ltokens : List String) (p : Nat) :
    p ∈ candidate_set text_values ltokens ↔
    ∃ token ∈ ltokens, p ∈ token_postings text_values token := by
  induction ltokens with
  | nil => simp [candidate_set]
  | cons t rest ih =>
    unfold candidate_set at ih ⊢
    simp only [List.foldr_cons, Finset.mem_union, List.mem_toFinset, ih]
    constructor
    · rintro (h | ⟨tok, htok, hp⟩)
      · exact ⟨t, List.mem_cons_self t rest, h⟩
      · exact ⟨tok, List.mem_cons_of_mem t htok, hp⟩
    · rintro ⟨tok, htok, hp⟩
      rcases List.mem_cons.mp htok with h | h
      · subst h; exact Or.inl hp
      · exact Or.inr ⟨tok, h, hp⟩

theorem candidate_positions_length (text_values : List String) (ltokens : List String) :
    (candidate_positions text_values ltokens).length =
    (candidate_set text_values ltokens).card := by
  unfold candidate_positions
  rw [← List.toFinset_card_of_nodup (nodup_matchPositions _ text_values)]
  congr 1
  apply Finset.ext
  intro p
  rw [List.mem_toFinset, mem_matchPositions, mem_candidate_set]
  constructor
  · rintro ⟨hp, hany⟩
    rw [List.any_eq_true] at hany
    obtain ⟨tok, htok, hmem⟩ := hany
    rw [List.elem_iff] at hmem
    refine ⟨tok, hmem, ?_⟩
    unfold token_postings
    rw [mem_matchPositions]
    exact ⟨hp, by rw [List.elem_iff]; exact htok⟩
  · rintro ⟨tok, htok, hp⟩
    unfold token_postings at hp
    rw [mem_matchPositions] at hp
    obtain ⟨hlt, hcont⟩ := hp
    refine ⟨hlt, ?_⟩
    rw [List.any_eq_true]
    exact ⟨tok, by rw [← List.elem_iff]; exact hcont, by rw [List.elem_iff]; exact htok⟩

theorem left_key_ne_score (c : String) : ("Left_" ++ c) ≠ "Similarity_Score" := by
  intro h
  have h2 := congrArg (fun s => s.data.headD 'x') h
  have h3 : ('L' : Char) = 'S' := h2
  exact absurd h3 (by decide)

theorem left_key_ne_status (c : String) : ("Left_" ++ c) ≠ "Match_Status" := by
  intro h
  have h2 := congrArg (fun s => s.data.headD 'x') h
  have h3 : ('L' : Char) = 'M' := h2
  exact absurd h3 (by decide)

theorem right_key_ne_score (c : String) : ("Right_" ++ c) ≠ "Similarity_Score" := by
  intro h
  have h2 := congrArg (fun s => s.data.headD 'x') h
  have h3 : ('R' : Char) = 'S' := h2
  exact absurd h3 (by decide)

theorem right_key_ne_status (c : String) : ("Right_" ++ c) ≠ "Match_Status" := by
  intro h
  have h2 := congrArg (fun s => s.data.headD 'x') h
  have h3 : ('R' : Char) = 'M' := h2
  exact absurd h3 (by decide)

/-- A concrete similarity environment used by witnesses: rapidfuzz absent,
the difflib scorer returning a fixed ratio. -/
def sampleEnv : SimilarityEnv :=
  { rapidfuzz_available := false
    rapidfuzz_ratio := fun _ _ => 0
    difflib_ratio := fun _ _ => (7 : ℚ) / 10 }

theorem similarity_disabled_cond (lmc rmc : List String) (hdis : lmc = [] ∨ rmc = []) :
    (!lmc.isEmpty && !rmc.isEmpty) = false := by
  rcases hdis with h | h <;> subst h <;> simp

theorem similarity_enabled_cond (lmc rmc : List String) (hl : lmc ≠ []) (hr : rmc ≠ []) :
    (!lmc.isEmpty && !rmc.isEmpty) = true := by
  simp [List.isEmpty_iff, hl, hr]

theorem run_matching_disabled_spec (env : SimilarityEnv) (left_df right_df : List Row)
    (loc roc lmc rmc : List String) (threshold : ℚ) (iu pf : Bool)
    (hdis : lmc = [] ∨ rmc = []) :
    run_matching env left_df right_df loc roc lmc rmc threshold iu pf =
    { result_rows := (List.range left_df.length).filterMap (fun left_pos =>
        if (decide (left_pos < right_df.length) || iu) = true then some (
          ((to_records left_df loc).getD left_pos []).map
            (fun cv => ("Left_" ++ cv.1, Cell.val cv.2)) ++
          (if left_pos < right_df.length then
            ((to_records right_df roc).getD left_pos []).map
              (fun cv => ("Right_" ++ cv.1, Cell.val cv.2))
           else roc.map (fun col => ("Right_" ++ col, Cell.val none))))
        else none)
      best_scores := []
      best_positions := []
      left_text := left_df.map (fun _ => "")
      right_text := right_df.map (fun _ => "")
      similarity_enabled := false
      similarity_engine := "disabled"
      exact_match_count := 0
      candidate_comparisons := 0
      left_match_columns_used := []
      right_match_columns_used := [] } := by
  have hcond := similarity_disabled_cond lmc rmc hdis
  simp only [run_matching, hcond]
  rw [if_pos trivial]
  rw [foldl_emit (fun left_pos =>
        decide (left_pos < (to_records right_df roc).length) || iu)
      (fun left_pos =>
        ((to_records left_df loc).getD left_pos []).map
          (fun cv => ("Left_" ++ cv.1, Cell.val cv.2)) ++
        (if left_pos < (to_records right_df roc).length then
          ((to_records right_df roc).getD left_pos []).map
            (fun cv => ("Right_" ++ cv.1, Cell.val cv.2))
         else roc.map (fun col => ("Right_" ++ col, Cell.val none))))]
  simp only [List.nil_append, to_records_length, combine_columns]
  simp

/-- C10: when similarity is disabled (either match-column selection empty),
the MatchResult has empty score and position lists, zero exact-match and
candidate-comparison counters, engine "disabled", and empty used
match-column lists, for every input dataset and parameter choice. -/
theorem c10_disabled_result_fields (env : SimilarityEnv) (left_df right_df : List Row)
    (loc roc lmc rmc : List String) (threshold : ℚ) (iu pf : Bool)
    (hdis : lmc = [] ∨ rmc = []) :
    (run_matching env left_df right_df loc roc lmc rmc threshold iu pf).best_scores = [] ∧
    (run_matching env left_df right_df loc roc lmc rmc threshold iu pf).best_positions = [] ∧
    (run_matching env left_df right_df loc roc lmc rmc threshold iu pf).exact_match_count = 0 ∧
    (run_matching env left_df right_df loc roc lmc rmc threshold iu pf).candidate_comparisons = 0 ∧
    (run_matching env left_df right_df loc roc lmc rmc threshold iu pf).similarity_engine
      = "disabled" ∧
    (run_matching env left_df right_df loc roc lmc rmc threshold iu pf).left_match_columns_used
      = [] ∧
    (run_matching env left_df right_df loc roc lmc rmc threshold iu pf).right_match_columns_used
      = [] ∧
    (run_matching env left_df right_df loc roc lmc rmc threshold iu pf).similarity_enabled
      = false := by
  rw [run_matching_disabled_spec env left_df right_df loc roc lmc rmc threshold iu pf hdis]
  exact ⟨rfl, rfl, rfl, rfl, rfl, rfl, rfl, rfl⟩

theorem c10_disabled_result_fields_witness :
    (run_matching sampleEnv [[("a", some "x")]] [] ["a"] ["b"] [] ["b"]
      ((5 : ℚ) / 10) true true).best_scores = [] ∧
    (run_matching sampleEnv [[("a", some "x")]] [] ["a"] ["b"] [] ["b"]
      ((5 : ℚ) / 10) true true).similarity_engine = "disabled" := by
  have h := c10_disabled_result_fields sampleEnv [[("a", some "x")]] [] ["a"] ["b"] [] ["b"]
    ((5 : ℚ) / 10) true true (Or.inl rfl)
  exact ⟨h.1, h.2.2.2.2.1⟩

/-- C5: with an empty match-column selection on either side, run_matching
produces the positional merge: left columns always emitted with the Left_
prefix, the right row at the same index supplies the Right_ columns when it
exists and otherwise they are all null, a row is emitted iff a right row
exists at that index or include_unmatched is true, no Similarity_Score or
Match_Status field appears, and the whole result is identical for every
threshold, prefer_rapidfuzz flag and scoring environment. -/
theorem c5_positional_merge (env env₂ : SimilarityEnv) (left_df right_df : List Row)
    (loc roc lmc rmc : List String) (threshold threshold₂ : ℚ) (iu pf pf₂ : Bool)
    (hdis : lmc = [] ∨ rmc = []) :
    (run_matching env left_df right_df loc roc lmc rmc threshold iu pf).result_rows =
      (List.range left_df.length).filterMap (fun left_pos =>
        if (decide (left_pos < right_df.length) || iu) = true then some (
          ((to_records left_df loc).getD left_pos []).map
            (fun cv => ("Left_" ++ cv.1, Cell.val cv.2)) ++
          (if left_pos < right_df.length then
            ((to_records right_df roc).getD left_pos []).map
              (fun cv => ("Right_" ++ cv.1, Cell.val cv.2))
           else roc.map (fun col => ("Right_" ++ col, Cell.val none))))
        else none) ∧
    (∀ row ∈ (run_matching env left_df right_df loc roc lmc rmc threshold iu pf).result_rows,
      ∀ kv ∈ row, kv.1 ≠ "Similarity_Score" ∧ kv.1 ≠ "Match_Status") ∧
    run_matching env left_df right_df loc roc lmc rmc threshold iu pf =
      run_matching env₂ left_df right_df loc roc lmc rmc threshold₂ iu pf₂ := by
  refine ⟨?_, ?_, ?_⟩
  · rw [run_matching_disabled_spec env left_df right_df loc roc lmc rmc threshold iu pf hdis]
  · rw [run_matching_disabled_spec env left_df right_df loc roc lmc rmc threshold iu pf hdis]
    intro row hrow kv hkv
    simp only [List.mem_filterMap, List.mem_range] at hrow
    obtain ⟨i, _, hrow⟩ := hrow
    by_cases hc : (decide (i < right_df.length) || iu) = true
    · rw [if_pos hc, Option.some.injEq] at hrow
      subst hrow
      rcases List.mem_append.mp hkv with hkv' | hkv'
      · obtain ⟨cv, _, hkv''⟩ := List.mem_map.mp hkv'
        rw [← hkv'']
        exact ⟨left_key_ne_score cv.1, left_key_ne_status cv.1⟩
      · by_cases hb : i < right_df.length
        · rw [if_pos hb] at hkv'
          obtain ⟨cv, _, hkv''⟩ := List.mem_map.mp hkv'
          rw [← hkv'']
          exact ⟨right_key_ne_score cv.1, right_key_ne_status cv.1⟩
        · rw [if_neg hb] at hkv'
          obtain ⟨col, _, hkv''⟩ := List.mem_map.mp hkv'
          rw [← hkv'']
          exact ⟨right_key_ne_score col, right_key_ne_status col⟩
    · rw [if_neg hc] at hrow
      exact absurd hrow (by simp)
  · rw [run_matching_disabled_spec env left_df right_df loc roc lmc rmc threshold iu pf hdis,
      run_matching_disabled_spec env₂ left_df right_df loc roc lmc rmc threshold₂ iu pf₂ hdis]

theorem c5_positional_merge_witness :
    (run_matching sampleEnv [[("a", some "x")], [("a", some "y")]] [[("b", some "z")]]
        ["a"] ["b"] [] ["b"] ((5 : ℚ) / 10) true true).result_rows =
      [[("Left_a", Cell.val (some "x")), ("Right_b", Cell.val (some "z"))],
       [("Left_a", Cell.val (some "y")), ("Right_b", Cell.val none)]] ∧
    run_matching sampleEnv [[("a", some "x")], [("a", some "y")]] [[("b", some "z")]]
        ["a"] ["b"] [] ["b"] ((5 : ℚ) / 10) true true =
      run_matching ⟨true, fun _ _ => 1, fun _ _ => 1⟩
        [[("a", some "x")], [("a", some "y")]] [[("b", some "z")]]
        ["a"] ["b"] [] ["b"] ((9 : ℚ) / 10) true false := by
  have h := c5_positional_merge sampleEnv ⟨true, fun _ _ => 1, fun _ _ => 1⟩
    [[("a", some "x")], [("a", some "y")]] [[("b", some "z")]]
    ["a"] ["b"] [] ["b"] ((5 : ℚ) / 10) ((9 : ℚ) / 10) true true false (Or.inl rfl)
  refine ⟨?_, h.2.2⟩
  rw [h.1]
  decide

theorem run_matching_enabled_fields (env : SimilarityEnv) (left_df right_df : List Row)
    (loc roc lmc rmc : List String) (threshold : ℚ) (iu pf : Bool)
    (hl : lmc ≠ []) (hr : rmc ≠ []) :
    (run_matching env left_df right_df loc roc lmc rmc threshold iu pf).best_scores =
      ((combine_columns left_df lmc).map
        (match_row env (pf && env.rapidfuzz_available) (combine_columns right_df rmc))).map
        (fun d => d.best_score) ∧
    (run_matching env left_df right_df loc roc lmc rmc threshold iu pf).best_positions =
      ((combine_columns left_df lmc).map
        (match_row env (pf && env.rapidfuzz_available) (combine_columns right_df rmc))).map
        (fun d => d.best_pos) ∧
    (run_matching env left_df right_df loc roc lmc rmc threshold iu pf).exact_match_count =
      (((combine_columns left_df lmc).map
        (match_row env (pf && env.rapidfuzz_available) (combine_columns right_df rmc))).filter
        (fun d => d.exact_hit)).length ∧
    (run_matching env left_df right_df loc roc lmc rmc threshold iu pf).candidate_comparisons =
      (((combine_columns left_df lmc).map
        (match_row env (pf && env.rapidfuzz_available) (combine_columns right_df rmc))).map
        (fun d => d.comparisons)).sum ∧
    (run_matching env left_df right_df loc roc lmc rmc threshold iu pf).similarity_enabled
      = true := by
  have hcond := similarity_enabled_cond lmc rmc hl hr
  simp only [run_matching, hcond]
  rw [if_neg (by simp)]
  exact ⟨rfl, rfl, rfl, rfl, rfl⟩

theorem run_matching_enabled_rows (env : SimilarityEnv) (left_df right_df : List Row)
    (loc roc lmc rmc : List String) (threshold : ℚ) (iu pf : Bool)
    (hl : lmc ≠ []) (hr : rmc ≠ []) :
    (run_matching env left_df right_df loc roc lmc rmc threshold iu pf).result_rows =
    (List.range (combine_columns left_df lmc).length).filterMap (fun left_pos =>
      if ((((combine_columns left_df lmc).map
            (match_row env (pf && env.rapidfuzz_available)
              (combine_columns right_df rmc))).getD left_pos default).best_pos.isSome &&
          decide (threshold ≤ (((combine_columns left_df lmc).map
            (match_row env (pf && env.rapidfuzz_available)
              (combine_columns right_df rmc))).getD left_pos default).best_score) || iu) = true
      then some (
        ((to_records left_df loc).getD left_pos []).map
          (fun cv => ("Left_" ++ cv.1, Cell.val cv.2)) ++
        (if ((((combine_columns left_df lmc).map
              (match_row env (pf && env.rapidfuzz_available)
                (combine_columns right_df rmc))).getD left_pos default).best_pos.isSome &&
            decide (threshold ≤ (((combine_columns left_df lmc).map
              (match_row env (pf && env.rapidfuzz_available)
                (combine_columns right_df rmc))).getD left_pos default).best_score) &&
            (((combine_columns left_df lmc).map
              (match_row env (pf && env.rapidfuzz_available)
                (combine_columns right_df rmc))).getD left_pos default).best_pos.isSome) = true
         then
          ((to_records right_df roc).getD
            ((((combine_columns left_df lmc).map
              (match_row env (pf && env.rapidfuzz_available)
                (combine_columns right_df rmc))).getD left_pos default).best_pos.getD 0) []).map
            (fun cv => ("Right_" ++ cv.1, Cell.val cv.2))
         else roc.map (fun col => ("Right_" ++ col, Cell.val none))) ++
        [("Similarity_Score", Cell.num (round4 ((((combine_columns left_df lmc).map
            (match_row env (pf && env.rapidfuzz_available)
              (combine_columns right_df rmc))).getD left_pos default).best_score))),
         ("Match_Status", Cell.txt (if ((((combine_columns left_df lmc).map
            (match_row env (pf && env.rapidfuzz_available)
              (combine_columns right_df rmc))).getD left_pos default).best_pos.isSome &&
            decide (threshold ≤ (((combine_columns left_df lmc).map
              (match_row env (pf && env.rapidfuzz_available)
                (combine_columns right_df rmc))).getD left_pos default).best_score)) = true
           then "Matched" else "No match"))])
      else none) := by
  have hcond := similarity_enabled_cond lmc rmc hl hr
  simp only [run_matching, hcond]
  rw [if_neg (by simp)]
  rw [foldl_emit]
  rw [List.nil_append]
  rfl

theorem enabled_decision_at (env : SimilarityEnv) (left_df right_df : List Row)
    (loc roc lmc rmc : List String) (threshold : ℚ) (iu pf : Bool)
    (hl : lmc ≠ []) (hr : rmc ≠ []) (i : Nat) (hi : i < left_df.length) :
    (run_matching env left_df right_df loc roc lmc rmc threshold iu pf).best_scores.getD i 0 =
      (match_row env (pf && env.rapidfuzz_available) (combine_columns right_df rmc)
        ((combine_columns left_df lmc).getD i "")).best_score ∧
    (run_matching env left_df right_df loc roc lmc rmc threshold iu pf).best_positions.getD i none =
      (match_row env (pf && env.rapidfuzz_available) (combine_columns right_df rmc)
        ((combine_columns left_df lmc).getD i "")).best_pos := by
  obtain ⟨hs, hp, _, _, _⟩ :=
    run_matching_enabled_fields env left_df right_df loc roc lmc rmc threshold iu pf hl hr
  have hi' : i < (combine_columns left_df lmc).length := by
    rw [combine_columns_length]; exact hi
  have hi'' : i < ((combine_columns left_df lmc).map
      (match_row env (pf && env.rapidfuzz_available) (combine_columns right_df rmc))).length := by
    rw [List.length_map]; exact hi'
  constructor
  · rw [hs, getD_map (fun d => d.best_score) _ i 0 default hi'',
      getD_map (match_row env (pf && env.rapidfuzz_available) (combine_columns right_df rmc))
        _ i default "" hi']
  · rw [hp, getD_map (fun d => d.best_pos) _ i none default hi'',
      getD_map (match_row env (pf && env.rapidfuzz_available) (combine_columns right_df rmc))
        _ i default "" hi']

/-! ### match_row case analysis -/

theorem exact_bucket_empty_key (text_values : List String) :
    exact_bucket text_values "" = [] := by
  unfold exact_bucket
  rw [if_pos rfl]

theorem pyWords_empty : pyWords "" = [] := rfl

theorem match_row_empty_text (env : SimilarityEnv) (use_rapidfuzz : Bool)
    (right_text_values : List String) :
    match_row env use_rapidfuzz right_text_values "" =
      { best_score := 0, best_pos := none, exact_hit := false, comparisons := 0 } := by
  unfold match_row
  rw [if_neg (by simp [exact_bucket_empty_key])]
  rfl

theorem match_row_exact_spec (env : SimilarityEnv) (use_rapidfuzz : Bool)
    (right_text_values : List String) (ltext : String)
    (hb : exact_bucket right_text_values ltext ≠ []) :
    match_row env use_rapidfuzz right_text_values ltext =
      { best_score := 1,
        best_pos := some ((exact_bucket right_text_values ltext).headD 0),
        exact_hit := true, comparisons := 0 } := by
  unfold match_row
  rw [if_pos hb]

theorem match_row_not_exact (env : SimilarityEnv) (use_rapidfuzz : Bool)
    (right_text_values : List String) (ltext : String)
    (hb : exact_bucket right_text_values ltext = []) :
    match_row env use_rapidfuzz right_text_values ltext =
      (if pyWords ltext ≠ [] then
        { best_score := (scan_candidates env use_rapidfuzz ltext right_text_values
            (candidate_positions right_text_values (pyWords ltext))).1,
          best_pos := (scan_candidates env use_rapidfuzz ltext right_text_values
            (candidate_positions right_text_values (pyWords ltext))).2,
          exact_hit := false,
          comparisons := (candidate_positions right_text_values (pyWords ltext)).length }
       else { best_score := 0, best_pos := none, exact_hit := false, comparisons := 0 }) := by
  unfold match_row
  rw [if_neg (by simp [hb])]

theorem exact_bucket_ne_nil (text_values : List String) (key : String)
    (hk : key ≠ "") (hmem : key ∈ text_values) :
    exact_bucket text_values key ≠ [] := by
  obtain ⟨j, hj, hjk⟩ := List.mem_iff_getElem.mp hmem
  apply List.ne_nil_of_mem (a := j)
  unfold exact_bucket
  rw [if_neg hk, mem_matchPositions]
  exact ⟨hj, by rw [List.getD_eq_getElem text_values "" hj, hjk]; simp⟩

/-- C3: a left row whose normalized match text is empty has no tokens and no
candidate, so run_matching records score 0.0 and no best position for it,
whatever the right dataset contains. -/
theorem c3_empty_left_text (env : SimilarityEnv) (left_df right_df : List Row)
    (loc roc lmc rmc : List String) (threshold : ℚ) (iu pf : Bool)
    (hl : lmc ≠ []) (hr : rmc ≠ []) (i : Nat) (hi : i < left_df.length)
    (he : (combine_columns left_df lmc).getD i "" = "") :
    (run_matching env left_df right_df loc roc lmc rmc threshold iu pf).best_scores.getD i 0
      = 0 ∧
    (run_matching env left_df right_df loc roc lmc rmc threshold iu pf).best_positions.getD i none
      = none := by
  obtain ⟨hs, hp⟩ :=
    enabled_decision_at env left_df right_df loc roc lmc rmc threshold iu pf hl hr i hi
  rw [hs, hp, he, match_row_empty_text]
  exact ⟨rfl, rfl⟩

theorem c3_empty_left_text_witness :
    (run_matching sampleEnv [[("name", some "  ")]] [[("name", some "x")]]
      ["name"] ["name"] ["name"] ["name"] ((5 : ℚ) / 10) true true).best_scores.getD 0 0 = 0 ∧
    (run_matching sampleEnv [[("name", some "  ")]] [[("name", some "x")]]
      ["name"] ["name"] ["name"] ["name"] ((5 : ℚ) / 10) true true).best_positions.getD 0 none
      = none :=
  c3_empty_left_text sampleEnv [[("name", some "  ")]] [[("name", some "x")]]
    ["name"] ["name"] ["name"] ["name"] ((5 : ℚ) / 10) true true
    (by decide) (by decide) 0 (by decide) (by decide)

/-- C1 counterexample: the claim as stated fails on left rows with empty
normalized text.  Here the left row normalizes to the empty string and so
does the right row, so their NormalizedTexts are exactly equal, yet with
threshold 0.5 the engine records score 0.0 (not 1.0) and no best position
(hence status is not Matched). -/
theorem c1_exact_fast_path_counterexample :
    (combine_columns [[("name", some "  ")]] ["name"]).getD 0 "" =
      (combine_columns [[("name", some "")]] ["name"]).getD 0 "" ∧
    (run_matching sampleEnv [[("name", some "  ")]] [[("name", some "")]]
      ["name"] ["name"] ["name"] ["name"] ((5 : ℚ) / 10) true true).best_scores.getD 0 0 = 0 ∧
    ¬ (run_matching sampleEnv [[("name", some "  ")]] [[("name", some "")]]
      ["name"] ["name"] ["name"] ["name"] ((5 : ℚ) / 10) true true).best_scores.getD 0 0 = 1 ∧
    (run_matching sampleEnv [[("name", some "  ")]] [[("name", some "")]]
      ["name"] ["name"] ["name"] ["name"] ((5 : ℚ) / 10) true true).best_positions.getD 0 none
      = none := by
  decide

/-- C1 (amended): for every left row whose NormalizedText is non-empty and
exactly equals some right row's NormalizedText, run_matching with similarity
enabled records score 1.0 and a best position for that row which is the
first (smallest) right-row position whose text equals it, the row is Matched
for any threshold at most 1.0, and the row takes the exact fast path (exact
hit, zero candidate comparisons). -/
theorem c1_exact_fast_path (env : SimilarityEnv) (left_df right_df : List Row)
    (loc roc lmc rmc : List String) (threshold : ℚ) (iu pf : Bool)
    (hl : lmc ≠ []) (hr : rmc ≠ []) (i : Nat) (hi : i < left_df.length)
    (hne : (combine_columns left_df lmc).getD i "" ≠ "")
    (hex : (combine_columns left_df lmc).getD i "" ∈ combine_columns right_df rmc)
    (hthr : threshold ≤ 1) :
    (run_matching env left_df right_df loc roc lmc rmc threshold iu pf).best_scores.getD i 0
      = 1 ∧
    (∃ p, (run_matching env left_df right_df loc roc lmc rmc threshold iu
        pf).best_positions.getD i none = some p ∧
      p < (combine_columns right_df rmc).length ∧
      (combine_columns right_df rmc).getD p "" = (combine_columns left_df lmc).getD i "" ∧
      ∀ q < p, (combine_columns right_df rmc).getD q "" ≠
        (combine_columns left_df lmc).getD i "") ∧
    ((run_matching env left_df right_df loc roc lmc rmc threshold iu
        pf).best_positions.getD i none).isSome = true ∧
    threshold ≤ (run_matching env left_df right_df loc roc lmc rmc threshold iu
      pf).best_scores.getD i 0 ∧
    (match_row env (pf && env.rapidfuzz_available) (combine_columns right_df rmc)
      ((combine_columns left_df lmc).getD i "")).exact_hit = true ∧
    (match_row env (pf && env.rapidfuzz_available) (combine_columns right_df rmc)
      ((combine_columns left_df lmc).getD i "")).comparisons = 0 := by
  obtain ⟨hs, hp⟩ :=
    enabled_decision_at env left_df right_df loc roc lmc rmc threshold iu pf hl hr i hi
  have hb : exact_bucket (combine_columns right_df rmc)
      ((combine_columns left_df lmc).getD i "") ≠ [] :=
    exact_bucket_ne_nil _ _ hne hex
  have hmr := match_row_exact_spec env (pf && env.rapidfuzz_available) _ _ hb
  have hbucket : exact_bucket (combine_columns right_df rmc)
      ((combine_columns left_df lmc).getD i "") =
      matchPositions (fun t => t == (combine_columns left_df lmc).getD i "")
        (combine_columns right_df rmc) := by
    unfold exact_bucket
    rw [if_neg hne]
  have hb' : matchPositions (fun t => t == (combine_columns left_df lmc).getD i "")
      (combine_columns right_df rmc) ≠ [] := by
    rw [← hbucket]; exact hb
  obtain ⟨h1, h2, h3⟩ := head_matchPositions _ _ hb'
  refine ⟨?_, ?_, ?_, ?_, ?_, ?_⟩
  · rw [hs, hmr]
  · refine ⟨(matchPositions (fun t => t == (combine_columns left_df lmc).getD i "")
        (combine_columns right_df rmc)).headD 0, ?_, h1, ?_, ?_⟩
    · rw [hp, hmr, hbucket]
    · have := h2
      rw [beq_iff_eq] at this
      exact this
    · intro q hq
      have := h3 q hq
      rw [beq_eq_false_iff_ne] at this
      exact this
  · rw [hp, hmr]
    rfl
  · rw [hs, hmr]
    exact hthr
  · rw [hmr]
  · rw [hmr]

theorem c1_exact_fast_path_witness :
    (run_matching sampleEnv [[("name", some "ABC ")]] [[("name", some "abc")]]
      ["name"] ["name"] ["name"] ["name"] ((5 : ℚ) / 10) true true).best_scores.getD 0 0 = 1 ∧
    (match_row sampleEnv (true && sampleEnv.rapidfuzz_available)
      (combine_columns [[("name", some "abc")]] ["name"])
      ((combine_columns [[("name", some "ABC ")]] ["name"]).getD 0 "")).exact_hit = true :=
  ⟨(c1_exact_fast_path sampleEnv [[("name", some "ABC ")]] [[("name", some "abc")]]
      ["name"] ["name"] ["name"] ["name"] ((5 : ℚ) / 10) true true
      (by decide) (by decide) 0 (by decide) (by decide) (by decide) (by norm_num)).1,
   (c1_exact_fast_path sampleEnv [[("name", some "ABC ")]] [[("name", some "abc")]]
      ["name"] ["name"] ["name"] ["name"] ((5 : ℚ) / 10) true true
      (by decide) (by decide) 0 (by decide) (by decide) (by decide) (by norm_num)).2.2.2.2.1⟩

/-- C2 counterexample: the claim says the exact index keys right rows with
empty NormalizedText under the empty string (bucket `[0]` here) and that a
left row with empty match text exactly matches the first such right row
with score 1.0.  The code skips empty texts when building the index, so the
bucket of the empty string is empty and the left row scores 0.0. -/
theorem c2_exact_index_counterexample :
    (combine_columns [[("name", some "")]] ["name"]).getD 0 "" = "" ∧
    exact_bucket (combine_columns [[("name", some "")]] ["name"]) "" = [] ∧
    ¬ exact_bucket (combine_columns [[("name", some "")]] ["name"]) "" = [0] ∧
    (run_matching sampleEnv [[("name", none)]] [[("name", some "")]]
      ["name"] ["name"] ["name"] ["name"] ((5 : ℚ) / 10) true true).best_scores.getD 0 0 = 0 ∧
    ¬ (run_matching sampleEnv [[("name", none)]] [[("name", some "")]]
      ["name"] ["name"] ["name"] ["name"] ((5 : ℚ) / 10) true true).best_scores.getD 0 0
      = 1 := by
  decide

/-- C2 (amended): the exact index maps every right row with non-empty
NormalizedText to the ordered list of right-row positions sharing that
text; rows with empty NormalizedText are skipped, so the empty string is
never a key, and a left row with empty match text gets no exact match
(score 0.0, position none). -/
theorem c2_exact_index_amended (text_values : List String) :
    (∀ p, p < text_values.length → text_values.getD p "" ≠ "" →
      p ∈ exact_bucket text_values (text_values.getD p "")) ∧
    (∀ key, key ≠ "" → ∀ p,
      (p ∈ exact_bucket text_values key ↔
        p < text_values.length ∧ text_values.getD p "" = key)) ∧
    exact_bucket text_values "" = [] ∧
    (∀ (env : SimilarityEnv) (use_rapidfuzz : Bool),
      match_row env use_rapidfuzz text_values "" =
        { best_score := 0, best_pos := none, exact_hit := false, comparisons := 0 }) := by
  refine ⟨?_, ?_, exact_bucket_empty_key text_values, ?_⟩
  · intro p hp hne
    unfold exact_bucket
    rw [if_neg hne, mem_matchPositions]
    exact ⟨hp, by simp⟩
  · intro key hk p
    unfold exact_bucket
    rw [if_neg hk, mem_matchPositions]
    constructor
    · rintro ⟨h1, h2⟩
      rw [beq_iff_eq] at h2
      exact ⟨h1, h2⟩
    · rintro ⟨h1, h2⟩
      exact ⟨h1, by rw [beq_iff_eq]; exact h2⟩
  · intro env use_rapidfuzz
    exact match_row_empty_text env use_rapidfuzz text_values

theorem c2_exact_index_amended_witness :
    0 ∈ exact_bucket ["abc", "abc"] "abc" ∧ exact_bucket ["", "x"] "" = [] :=
  ⟨(c2_exact_index_amended ["abc", "abc"]).1 0 (by decide) (by decide),
   (c2_exact_index_amended ["", "x"]).2.2.1⟩

/-- C4: after a similarity-enabled run, the candidate-comparisons counter
equals the sum, over exactly the left rows whose NormalizedText is not a key
of the exact index, of the cardinality of that row's candidate set (the
union over the row's tokens of the token-index postings sets). -/
theorem c4_candidate_comparisons (env : SimilarityEnv) (left_df right_df : List Row)
    (loc roc lmc rmc : List String) (threshold : ℚ) (iu pf : Bool)
    (hl : lmc ≠ []) (hr : rmc ≠ []) :
    (run_matching env left_df right_df loc roc lmc rmc threshold iu pf).candidate_comparisons =
      ((combine_columns left_df lmc).map (fun lt =>
        if exact_bucket (combine_columns right_df rmc) lt ≠ [] then 0
        else (candidate_set (combine_columns right_df rmc) (pyWords lt)).card)).sum := by
  obtain ⟨_, _, _, hc, _⟩ :=
    run_matching_enabled_fields env left_df right_df loc roc lmc rmc threshold iu pf hl hr
  rw [hc, List.map_map]
  congr 1
  apply List.map_congr_left
  intro lt _
  simp only [Function.comp_apply]
  by_cases hb : exact_bucket (combine_columns right_df rmc) lt ≠ []
  · rw [if_pos hb, match_row_exact_spec env (pf && env.rapidfuzz_available) _ lt hb]
  · have hb' : exact_bucket (combine_columns right_df rmc) lt = [] := not_ne_iff.mp hb
    rw [if_neg hb, match_row_not_exact env (pf && env.rapidfuzz_available) _ lt hb']
    by_cases ht : pyWords lt ≠ []
    · rw [if_pos ht]
      exact candidate_positions_length (combine_columns right_df rmc) (pyWords lt)
    · have ht' : pyWords lt = [] := not_ne_iff.mp ht
      rw [if_neg ht, ht']
      rfl

theorem c4_candidate_comparisons_witness :
    (run_matching sampleEnv [[("name", some "john smith")]] [[("name", some "jon smith")]]
      ["name"] ["name"] ["name"] ["name"] ((5 : ℚ) / 10) true
      false).candidate_comparisons =
      ((combine_columns [[("name", some "john smith")]] ["name"]).map (fun lt =>
        if exact_bucket (combine_columns [[("name", some "jon smith")]] ["name"]) lt ≠ []
        then 0
        else (candidate_set (combine_columns [[("name", some "jon smith")]] ["name"])
          (pyWords lt)).card)).sum :=
  c4_candidate_comparisons sampleEnv [[("name", some "john smith")]]
    [[("name", some "jon smith")]] ["name"] ["name"] ["name"] ["name"] ((5 : ℚ) / 10) true false
    (by decide) (by decide)

/-- C7: with the default update interval, the progress-callback sequence of
a run over `total_rows` left rows starts with `(0, total_rows)` before any
row is processed, contains `(total_rows, total_rows)` at completion, and
contains `(d, total_rows)` for every processed-row count `d` that is a
multiple of `max(total_rows / 200, 1)`. -/
theorem c7_progress_sequence (total_rows : Nat) :
    (progress_calls total_rows none).headD (0, 0) = (0, total_rows) ∧
    (total_rows, total_rows) ∈ progress_calls total_rows none ∧
    ∀ d, 1 ≤ d → d ≤ total_rows → d % max (total_rows / 200) 1 = 0 →
      (d, total_rows) ∈ progress_calls total_rows none := by
  refine ⟨rfl, ?_, ?_⟩
  · show (total_rows, total_rows) ∈
      (0, total_rows) :: (List.range total_rows).filterMap (fun left_pos =>
        if ((left_pos + 1) % max (total_rows / 200) 1 == 0
            || (left_pos + 1) == total_rows) = true then
          some (left_pos + 1, total_rows)
        else none)
    cases total_rows with
    | zero => exact List.mem_cons_self _ _
    | succ n =>
      apply List.mem_cons_of_mem
      rw [List.mem_filterMap]
      refine ⟨n, by simp, ?_⟩
      rw [if_pos (by simp)]
  · intro d h1 h2 h3
    show (d, total_rows) ∈
      (0, total_rows) :: (List.range total_rows).filterMap (fun left_pos =>
        if ((left_pos + 1) % max (total_rows / 200) 1 == 0
            || (left_pos + 1) == total_rows) = true then
          some (left_pos + 1, total_rows)
        else none)
    apply List.mem_cons_of_mem
    rw [List.mem_filterMap]
    have hd : d - 1 + 1 = d := by omega
    refine ⟨d - 1, by rw [List.mem_range]; omega, ?_⟩
    rw [hd, if_pos (by simp [h3])]

theorem c7_progress_sequence_witness :
    (progress_calls 450 none).headD (0, 0) = (0, 450) ∧
    (450, 450) ∈ progress_calls 450 none ∧
    (4, 450) ∈ progress_calls 450 none :=
  ⟨(c7_progress_sequence 450).1, (c7_progress_sequence 450).2.1,
   (c7_progress_sequence 450).2.2 4 (by decide) (by decide) (by decide)⟩

theorem match_row_pos_lt (env : SimilarityEnv) (use_rapidfuzz : Bool)
    (right_text_values : List String) (ltext : String) (p : Nat)
    (hp : (match_row env use_rapidfuzz right_text_values ltext).best_pos = some p) :
    p < right_text_values.length := by
  by_cases hb : exact_bucket right_text_values ltext ≠ []
  · rw [match_row_exact_spec env use_rapidfuzz right_text_values ltext hb] at hp
    have hpeq := Option.some.inj hp
    have hne' : ltext ≠ "" := by
      intro h0
      rw [h0] at hb
      exact hb (exact_bucket_empty_key right_text_values)
    have hmem := headD_mem _ 0 hb
    unfold exact_bucket at hmem
    rw [if_neg hne', mem_matchPositions] at hmem
    have hpeq' : (exact_bucket right_text_values ltext).headD 0 = p := hpeq
    unfold exact_bucket at hpeq'
    rw [if_neg hne'] at hpeq'
    rw [← hpeq']
    exact hmem.1
  · have hb' : exact_bucket right_text_values ltext = [] := not_ne_iff.mp hb
    rw [match_row_not_exact env use_rapidfuzz right_text_values ltext hb'] at hp
    by_cases ht : pyWords ltext ≠ []
    · rw [if_pos ht] at hp
      have hp' : (scan_candidates env use_rapidfuzz ltext right_text_values
          (candidate_positions right_text_values (pyWords ltext))).2 = some p := hp
      rcases scan_candidates_pos env use_rapidfuzz ltext right_text_values
          (candidate_positions right_text_values (pyWords ltext)) with h0 | ⟨q, hq, h0⟩
      · rw [h0] at hp'
        exact absurd hp' (by simp)
      · rw [h0] at hp'
        have : q = p := Option.some.inj hp'
        subst this
        unfold candidate_positions at hq
        rw [mem_matchPositions] at hq
        exact hq.1
    · rw [if_neg ht] at hp
      exact absurd hp (by simp)

/-- C9: every non-none entry of best_positions returned by run_matching is
a valid zero-based index into the right dataset, so every lookup of a right
row during matching and assembly is in bounds. -/
theorem c9_positions_in_bounds (env : SimilarityEnv) (left_df right_df : List Row)
    (loc roc lmc rmc : List String) (threshold : ℚ) (iu pf : Bool) (p : Nat)
    (hp : some p ∈
      (run_matching env left_df right_df loc roc lmc rmc threshold iu pf).best_positions) :
    p < right_df.length := by
  by_cases hdis : lmc = [] ∨ rmc = []
  · rw [run_matching_disabled_spec env left_df right_df loc roc lmc rmc threshold iu pf hdis]
      at hp
    exact absurd hp (by simp)
  · push_neg at hdis
    obtain ⟨hl, hr⟩ := hdis
    obtain ⟨_, hpos, _, _, _⟩ :=
      run_matching_enabled_fields env left_df right_df loc roc lmc rmc threshold iu pf hl hr
    rw [hpos, List.mem_map] at hp
    obtain ⟨d, hd, hdp⟩ := hp
    rw [List.mem_map] at hd
    obtain ⟨lt, _, hmr⟩ := hd
    rw [← hmr] at hdp
    have hlt := match_row_pos_lt env (pf && env.rapidfuzz_available)
      (combine_columns right_df rmc) lt p hdp
    rw [combine_columns_length] at hlt
    exact hlt

theorem c9_positions_in_bounds_witness :
    (0 : Nat) < ([[("name", some "abc")]] : List Row).length :=
  c9_positions_in_bounds sampleEnv [[("name", some "ABC ")]] [[("name", some "abc")]]
    ["name"] ["name"] ["name"] ["name"] ((5 : ℚ) / 10) true true 0 (by decide)

/-- C6: in similarity-enabled mode, run_matching emits an output row for
left row i iff the row is Matched (a best position exists and its score is
at least the threshold) or include_unmatched is true; each emitted row
carries the selected left output columns with the Left_ prefix, the
selected right output columns with the Right_ prefix (from the best-matched
right row when Matched, else all null), a Similarity_Score equal to the
score rounded to 4 decimal places, and a Match_Status of "Matched" or
"No match"; the output row count is at most the number of left rows. -/
theorem c6_enabled_emission (env : SimilarityEnv) (left_df right_df : List Row)
    (loc roc lmc rmc : List String) (threshold : ℚ) (iu pf : Bool)
    (hl : lmc ≠ []) (hr : rmc ≠ []) :
    (run_matching env left_df right_df loc roc lmc rmc threshold iu pf).result_rows =
      (List.range left_df.length).filterMap (fun i =>
        if (((run_matching env left_df right_df loc roc lmc rmc threshold iu
              pf).best_positions.getD i none).isSome &&
            decide (threshold ≤ (run_matching env left_df right_df loc roc lmc rmc threshold iu
              pf).best_scores.getD i 0) || iu) = true then
          some (
            ((to_records left_df loc).getD i []).map
              (fun cv => ("Left_" ++ cv.1, Cell.val cv.2)) ++
            (if (((run_matching env left_df right_df loc roc lmc rmc threshold iu
                  pf).best_positions.getD i none).isSome &&
                decide (threshold ≤ (run_matching env left_df right_df loc roc lmc rmc threshold
                  iu pf).best_scores.getD i 0)) = true then
              ((to_records right_df roc).getD
                (((run_matching env left_df right_df loc roc lmc rmc threshold iu
                  pf).best_positions.getD i none).getD 0) []).map
                (fun cv => ("Right_" ++ cv.1, Cell.val cv.2))
             else roc.map (fun col => ("Right_" ++ col, Cell.val none))) ++
            [("Similarity_Score", Cell.num (round4
              ((run_matching env left_df right_df loc roc lmc rmc threshold iu
                pf).best_scores.getD i 0))),
             ("Match_Status", Cell.txt
              (if (((run_matching env left_df right_df loc roc lmc rmc threshold iu
                    pf).best_positions.getD i none).isSome &&
                  decide (threshold ≤ (run_matching env left_df right_df loc roc lmc rmc
                    threshold iu pf).best_scores.getD i 0)) = true
               then "Matched" else "No match"))])
        else none) ∧
    (run_matching env left_df right_df loc roc lmc rmc threshold iu pf).result_rows.length ≤
      left_df.length := by
  constructor
  · rw [run_matching_enabled_rows env left_df right_df loc roc lmc rmc threshold iu pf hl hr,
      combine_columns_length]
    apply List.filterMap_congr
    intro i hi
    rw [List.mem_range] at hi
    obtain ⟨hs, hp⟩ :=
      enabled_decision_at env left_df right_df loc roc lmc rmc threshold iu pf hl hr i hi
    have hi' : i < (combine_columns left_df lmc).length := by
      rw [combine_columns_length]; exact hi
    rw [getD_map (match_row env (pf && env.rapidfuzz_available)
      (combine_columns right_df rmc)) (combine_columns left_df lmc) i default "" hi']
    rw [hs, hp]
    generalize match_row env (pf && env.rapidfuzz_available) (combine_columns right_df rmc)
      ((combine_columns left_df lmc).getD i "") = d
    cases hps : d.best_pos with
    | none => simp [hps]
    | some q => cases hdec : decide (threshold ≤ d.best_score) <;> simp [hps, hdec]
  · rw [run_matching_enabled_rows env left_df right_df loc roc lmc rmc threshold iu pf hl hr]
    calc ((List.range (combine_columns left_df lmc).length).filterMap _).length
        ≤ (List.range (combine_columns left_df lmc).length).length :=
          List.length_filterMap_le _ _
      _ = left_df.length := by rw [List.length_range, combine_columns_length]

theorem c6_enabled_emission_witness :
    (run_matching sampleEnv [[("name", some "john smith")]] [[("name", some "jon smith")]]
      ["name"] ["name"] ["name"] ["name"] ((5 : ℚ) / 10) false
      false).result_rows.length ≤ 1 :=
  (c6_enabled_emission sampleEnv [[("name", some "john smith")]]
    [[("name", some "jon smith")]] ["name"] ["name"] ["name"] ["name"] ((5 : ℚ) / 10) false
    false (by decide) (by decide)).2

end ExcelsColumnsMerger
